import Mathlib

/-!
Verification development for the immudb-node-ts-crud repository.

The repository has two components built on an external immudb client
(the "Gateway"): a bulk-import script (`importJSONToImmuDB`) that chunks a
flat JSON dataset into batches of 1000 records, builds one bulk INSERT
statement per batch with manual quote escaping, and skips failed batches;
and a thin CRUD service (`ImmudbCrudService`) with create/read/update/
history operations on a `users` table.

This file embeds those pieces shallowly:
* the batch partitioning loop (`sliceBatches`, `offsetBatches`) and the
  per-batch submission loop with its success/failure bookkeeping
  (`runBatches`, `importPipeline`);
* the statement-construction escaping (`escapeChars`, `escapeField`,
  `renderValuesRow`) together with a small SQL string-literal scanner
  used to express syntactic well-formedness of generated statements;
* the CRUD service operations (`createUser`, `getUser`, `updateUser`,
  `getUserAtTransaction`) over a list-of-rows model of the external
  `users` table, whose insert/select/update semantics follow the Gateway
  interface described in the specification (the engine itself is an
  external collaborator, not repository code).

Strings manipulated by the statement builder are modelled as `List Char`;
insignificant whitespace of the TypeScript template literals is elided.
-/

namespace ImmudbCrud

/-! ## Batch partitioning (importJSONToImmuDB insertion loop)

The source iterates `for (let i = 0; i < candidates.length; i += batchSize)`
taking `candidates.slice(i, i + batchSize)` at each step, with
`batchSize = 1000`.  `sliceBatches b l` is that loop's sequence of slices
for an arbitrary batch size `b`; the loop only terminates for `b ≥ 1`, and
for `b = 0` (outside the source's domain) we return the whole list as a
single batch so the function stays total. -/

def sliceBatches (b : Nat) (l : List α) : List (List α) :=
  match l with
  | [] => []
  | x :: xs =>
    if _hb : b = 0 then [x :: xs]
    else (x :: xs).take b :: sliceBatches b ((x :: xs).drop b)
termination_by l.length
decreasing_by
  simp only [List.length_drop, List.length_cons]
  omega

/-- The same slices paired with their starting offsets `i`, exactly as the
loop variable `i` ranges over `0, b, 2b, …` (the offset is what the error
log of a failed batch reports). -/
def offsetBatches (b : Nat) (i : Nat) (l : List α) : List (Nat × List α) :=
  match l with
  | [] => []
  | x :: xs =>
    if _hb : b = 0 then [(i, x :: xs)]
    else (i, (x :: xs).take b) :: offsetBatches b (i + b) ((x :: xs).drop b)
termination_by l.length
decreasing_by
  simp only [List.length_drop, List.length_cons]
  omega

theorem sliceBatches_nil (b : Nat) : sliceBatches b ([] : List α) = [] := by
  rw [sliceBatches]

theorem sliceBatches_cons (b : Nat) (l : List α) (hl : l ≠ []) (hb : b ≠ 0) :
    sliceBatches b l = l.take b :: sliceBatches b (l.drop b) := by
  match l with
  | [] => exact absurd rfl hl
  | x :: xs => rw [sliceBatches]; simp [hb]

theorem offsetBatches_nil (b i : Nat) : offsetBatches b i ([] : List α) = [] := by
  rw [offsetBatches]

theorem offsetBatches_cons (b i : Nat) (l : List α) (hl : l ≠ []) (hb : b ≠ 0) :
    offsetBatches b i l = (i, l.take b) :: offsetBatches b (i + b) (l.drop b) := by
  match l with
  | [] => exact absurd rfl hl
  | x :: xs => rw [offsetBatches]; simp [hb]

/-- The offset-annotated batches project onto the plain batches. -/
theorem offsetBatches_map_snd (b : Nat) (hb : 1 ≤ b) :
    ∀ (n : Nat) (i : Nat) (l : List α), l.length ≤ n →
      (offsetBatches b i l).map Prod.snd = sliceBatches b l := by
  intro n
  induction n with
  | zero =>
    intro i l hn
    have : l = [] := List.eq_nil_of_length_eq_zero (Nat.le_zero.mp hn)
    subst this; simp [offsetBatches_nil, sliceBatches_nil]
  | succ m ih =>
    intro i l hn
    by_cases hl : l = []
    · subst hl; simp [offsetBatches_nil, sliceBatches_nil]
    · have hb' : b ≠ 0 := Nat.one_le_iff_ne_zero.mp hb
      rw [offsetBatches_cons b i l hl hb', sliceBatches_cons b l hl hb']
      have hlen : (l.drop b).length ≤ m := by
        simp only [List.length_drop]
        have hpos : 0 < l.length := List.length_pos.mpr hl
        omega
      simp [ih (i + b) (l.drop b) hlen]

/-- Concatenating the batches in order reproduces the dataset. -/
theorem sliceBatches_join (b : Nat) (hb : 1 ≤ b) :
    ∀ (n : Nat) (l : List α), l.length ≤ n → (sliceBatches b l).flatten = l := by
  intro n
  induction n with
  | zero =>
    intro l hn
    have : l = [] := List.eq_nil_of_length_eq_zero (Nat.le_zero.mp hn)
    subst this; simp [sliceBatches_nil]
  | succ m ih =>
    intro l hn
    by_cases hl : l = []
    · subst hl; simp [sliceBatches_nil]
    · have hb' : b ≠ 0 := Nat.one_le_iff_ne_zero.mp hb
      rw [sliceBatches_cons b l hl hb']
      have hlen : (l.drop b).length ≤ m := by
        simp only [List.length_drop]
        have hpos : 0 < l.length := List.length_pos.mpr hl
        omega
      simp [List.flatten, ih (l.drop b) hlen, List.take_append_drop]

/-- Every batch holds at most `b` records. -/
theorem sliceBatches_le (b : Nat) (hb : 1 ≤ b) :
    ∀ (n : Nat) (l : List α), l.length ≤ n →
      ∀ c ∈ sliceBatches b l, c.length ≤ b := by
  intro n
  induction n with
  | zero =>
    intro l hn c hc
    have : l = [] := List.eq_nil_of_length_eq_zero (Nat.le_zero.mp hn)
    subst this; simp [sliceBatches_nil] at hc
  | succ m ih =>
    intro l hn c hc
    by_cases hl : l = []
    · subst hl; simp [sliceBatches_nil] at hc
    · have hb' : b ≠ 0 := Nat.one_le_iff_ne_zero.mp hb
      rw [sliceBatches_cons b l hl hb'] at hc
      rw [List.mem_cons] at hc
      rcases hc with hc | hc
      · subst hc
        simp [List.length_take_le b l]
      · have hlen : (l.drop b).length ≤ m := by
          simp only [List.length_drop]
          have hpos : 0 < l.length := List.length_pos.mpr hl
          omega
        exact ih (l.drop b) hlen c hc

/-- The number of batches is `⌈n / b⌉`, written `(n + b - 1) / b`. -/
theorem sliceBatches_count (b : Nat) (hb : 1 ≤ b) :
    ∀ (n : Nat) (l : List α), l.length ≤ n →
      (sliceBatches b l).length = (l.length + b - 1) / b := by
  intro n
  induction n with
  | zero =>
    intro l hn
    have : l = [] := List.eq_nil_of_length_eq_zero (Nat.le_zero.mp hn)
    subst this
    simp [sliceBatches_nil, Nat.div_eq_of_lt (by omega : b - 1 < b)]
  | succ m ih =>
    intro l hn
    by_cases hl : l = []
    · subst hl
      simp [sliceBatches_nil, Nat.div_eq_of_lt (by omega : b - 1 < b)]
    · have hb' : b ≠ 0 := Nat.one_le_iff_ne_zero.mp hb
      have hpos : 0 < l.length := List.length_pos.mpr hl
      rw [sliceBatches_cons b l hl hb']
      have hlen : (l.drop b).length ≤ m := by
        simp only [List.length_drop]; omega
      rw [List.length_cons, ih (l.drop b) hlen, List.length_drop]
      rcases le_or_lt l.length b with hle | hlt
      · have h1 : l.length - b = 0 := by omega
        rw [h1]
        have h2 : (0 + b - 1) / b = 0 := by
          apply Nat.div_eq_of_lt; omega
        have h3 : (l.length + b - 1) / b = 1 := by
          apply Nat.div_eq_of_lt_le
          · omega
          · omega
        rw [h2, h3]
      · have h4 : l.length - b + b - 1 = l.length - 1 := by omega
        have h5 : l.length + b - 1 = (l.length - 1) + b := by omega
        rw [h4, h5, Nat.add_div_right _ (by omega : 0 < b)]

theorem sliceBatches_ne_nil (b : Nat) (l : List α) (hl : l ≠ []) (hb : b ≠ 0) :
    sliceBatches b l ≠ [] := by
  rw [sliceBatches_cons b l hl hb]
  exact List.cons_ne_nil _ _

/-- The final batch holds `n % b` records, or `b` when `b` divides `n`. -/
theorem sliceBatches_getLast (b : Nat) (hb : 1 ≤ b) :
    ∀ (n : Nat) (l : List α), l.length ≤ n → l ≠ [] →
      ∃ c, (sliceBatches b l).getLast? = some c ∧
        c.length = if l.length % b = 0 then b else l.length % b := by
  intro n
  induction n with
  | zero =>
    intro l hn hl
    exact absurd (List.eq_nil_of_length_eq_zero (Nat.le_zero.mp hn)) hl
  | succ m ih =>
    intro l hn hl
    have hb' : b ≠ 0 := Nat.one_le_iff_ne_zero.mp hb
    have hpos : 0 < l.length := List.length_pos.mpr hl
    rw [sliceBatches_cons b l hl hb']
    by_cases hd : l.drop b = []
    · refine ⟨l.take b, ?_, ?_⟩
      · rw [hd, sliceBatches_nil]; rfl
      · have hle : l.length ≤ b := by
          have := List.length_drop b l
          rw [hd] at this
          simp at this
          omega
        rw [List.length_take]
        rcases Nat.lt_or_ge l.length b with hlt | hge
        · have hmod : l.length % b = l.length := Nat.mod_eq_of_lt hlt
          rw [hmod, if_neg (by omega)]
          omega
        · have heq : l.length = b := by omega
          rw [heq]
          simp
    · have hlen : (l.drop b).length ≤ m := by
        simp only [List.length_drop]; omega
      obtain ⟨c, hc1, hc2⟩ := ih (l.drop b) hlen hd
      refine ⟨c, ?_, ?_⟩
      · have hne := sliceBatches_ne_nil b (l.drop b) hd hb'
        cases hsb : sliceBatches b (l.drop b) with
        | nil => exact absurd hsb hne
        | cons a as =>
          rw [hsb] at hc1
          rw [List.getLast?_cons_cons]
          exact hc1
      · have hgt : b < l.length := by
          by_contra hcon
          push_neg at hcon
          have := List.drop_eq_nil_of_le hcon
          exact hd this
        have hmods : (l.drop b).length % b = l.length % b := by
          rw [List.length_drop]
          have : l.length = (l.length - b) + b := by omega
          conv_rhs => rw [this]
          rw [Nat.add_mod_right]
        rw [hc2, hmods]

/-- The batch lengths sum to the dataset size: every record is covered by
exactly one attempted batch, whatever the per-batch outcomes are. -/
theorem sliceBatches_sum_length (b : Nat) (hb : 1 ≤ b) (l : List α) :
    ((sliceBatches b l).map List.length).sum = l.length := by
  have h := sliceBatches_join b hb l.length l (le_refl _)
  calc ((sliceBatches b l).map List.length).sum
      = (sliceBatches b l).flatten.length := (List.length_flatten _).symm
    _ = l.length := by rw [h]

/-- C1: for any dataset and any batch size `b ≥ 1` (the source configures
`b = 1000`), the importer's slicing loop partitions the dataset into
`⌈n / b⌉` contiguous batches in original order, each of at most `b`
records; the last batch has `n % b` records (or `b` when `b ∣ n`);
concatenating the batches in order reproduces the dataset exactly (so no
boundary splits a record); and the batch sizes sum to `n`, independent of
any per-batch submission outcome. -/
theorem batch_partition_correct (b : Nat) (l : List α) (hb : 1 ≤ b) :
    (sliceBatches b l).length = (l.length + b - 1) / b ∧
    (∀ c ∈ sliceBatches b l, c.length ≤ b) ∧
    (sliceBatches b l).flatten = l ∧
    ((sliceBatches b l).map List.length).sum = l.length ∧
    (l ≠ [] → ∃ c, (sliceBatches b l).getLast? = some c ∧
      c.length = if l.length % b = 0 then b else l.length % b) :=
  ⟨sliceBatches_count b hb l.length l (le_refl _),
   sliceBatches_le b hb l.length l (le_refl _),
   sliceBatches_join b hb l.length l (le_refl _),
   sliceBatches_sum_length b hb l,
   fun hl => sliceBatches_getLast b hb l.length l (le_refl _) hl⟩

/-- Witness for `batch_partition_correct` at `b = 2` over a five-record
dataset (three batches of sizes 2, 2, 1). -/
theorem batch_partition_correct_witness :
    (sliceBatches 2 [0, 1, 2, 3, 4]).length = (5 + 2 - 1) / 2 ∧
    (∀ c ∈ sliceBatches 2 [0, 1, 2, 3, 4], c.length ≤ 2) ∧
    (sliceBatches 2 [0, 1, 2, 3, 4]).flatten = [0, 1, 2, 3, 4] ∧
    ((sliceBatches 2 [0, 1, 2, 3, 4]).map List.length).sum = 5 ∧
    ([0, 1, 2, 3, 4] ≠ [] → ∃ c,
      (sliceBatches 2 [0, 1, 2, 3, 4]).getLast? = some c ∧
      c.length = if 5 % 2 = 0 then 2 else 5 % 2) := by
  have h := batch_partition_correct 2 [0, 1, 2, 3, 4] (by decide)
  simpa using h

/-! ## Per-batch submission loop (importJSONToImmuDB)

For each batch the importer calls `client.SQLExec` inside a `try`:
on success `insertedCount += batch.length`; on failure it logs
``Error in bulk insert batch starting at ${i}`` together with
`error.message` and falls through to the next loop iteration.  The
Gateway's response to the statement submitted at offset `i` is modelled
by an oracle `exec : Nat → Except String Unit` (`.error msg` is a thrown
exception carrying the engine's error text). -/

/-- The bookkeeping accumulated by the insertion loop: the running
inserted-count, the failure log entries `(starting offset, error message)`
in emission order, and the number of statements submitted. -/
structure ImportResult where
  insertedCount : Nat
  failedBatches : List (Nat × String)
  submitted : Nat
deriving DecidableEq, Repr

def isOkB : Except String Unit → Bool
  | .ok _ => true
  | .error _ => false

def errMsg : Except String Unit → String
  | .ok _ => ""
  | .error e => e

/-- The insertion loop itself, starting at loop index `i`.  For `b = 0`
(outside the source's domain) the remainder is processed as a single
batch, consistent with `sliceBatches`. -/
def runBatches (exec : Nat → Except String Unit) (b : Nat) (i : Nat) :
    List α → ImportResult
  | [] => ⟨0, [], 0⟩
  | x :: xs =>
    if _hb : b = 0 then
      match exec i with
      | .ok _ => ⟨(x :: xs).length, [], 1⟩
      | .error e => ⟨0, [(i, e)], 1⟩
    else
      let rest := runBatches exec b (i + b) ((x :: xs).drop b)
      match exec i with
      | .ok _ =>
        ⟨((x :: xs).take b).length + rest.insertedCount,
         rest.failedBatches, rest.submitted + 1⟩
      | .error e =>
        ⟨rest.insertedCount, (i, e) :: rest.failedBatches, rest.submitted + 1⟩
termination_by l => l.length
decreasing_by
  simp only [List.length_drop, List.length_cons]
  omega

theorem runBatches_nil (exec : Nat → Except String Unit) (b i : Nat) :
    runBatches exec b i ([] : List α) = ⟨0, [], 0⟩ := by
  rw [runBatches]

theorem runBatches_cons (exec : Nat → Except String Unit) (b i : Nat)
    (l : List α) (hl : l ≠ []) (hb : b ≠ 0) :
    runBatches exec b i l =
      (match exec i with
       | .ok _ =>
         ⟨(l.take b).length + (runBatches exec b (i + b) (l.drop b)).insertedCount,
          (runBatches exec b (i + b) (l.drop b)).failedBatches,
          (runBatches exec b (i + b) (l.drop b)).submitted + 1⟩
       | .error e =>
         ⟨(runBatches exec b (i + b) (l.drop b)).insertedCount,
          (i, e) :: (runBatches exec b (i + b) (l.drop b)).failedBatches,
          (runBatches exec b (i + b) (l.drop b)).submitted + 1⟩ : ImportResult) := by
  match l with
  | [] => exact absurd rfl hl
  | x :: xs => rw [runBatches]; simp [hb]

/-- Full characterization of the loop's bookkeeping in terms of the batch
partition: every batch is submitted in order; the failure log is exactly
the failing batches' `(offset, error)` pairs; and the inserted-count is
the total size of the successfully submitted batches. -/
theorem runBatches_spec (exec : Nat → Except String Unit) (b : Nat)
    (hb : 1 ≤ b) :
    ∀ (n : Nat) (i : Nat) (l : List α), l.length ≤ n →
      (runBatches exec b i l).submitted = (offsetBatches b i l).length ∧
      (runBatches exec b i l).failedBatches =
        (offsetBatches b i l).filterMap
          (fun p => match exec p.1 with
                    | .error e => some (p.1, e)
                    | .ok _ => none) ∧
      (runBatches exec b i l).insertedCount =
        (((offsetBatches b i l).filter (fun p => isOkB (exec p.1))).map
          (fun p => p.2.length)).sum := by
  intro n
  induction n with
  | zero =>
    intro i l hn
    have : l = [] := List.eq_nil_of_length_eq_zero (Nat.le_zero.mp hn)
    subst this
    simp [runBatches_nil, offsetBatches_nil]
  | succ m ih =>
    intro i l hn
    by_cases hl : l = []
    · subst hl
      simp [runBatches_nil, offsetBatches_nil]
    · have hb' : b ≠ 0 := Nat.one_le_iff_ne_zero.mp hb
      have hpos : 0 < l.length := List.length_pos.mpr hl
      have hlen : (l.drop b).length ≤ m := by
        simp only [List.length_drop]; omega
      obtain ⟨ih1, ih2, ih3⟩ := ih (i + b) (l.drop b) hlen
      rw [runBatches_cons exec b i l hl hb', offsetBatches_cons b i l hl hb']
      cases hexec : exec i with
      | ok u =>
        refine ⟨?_, ?_, ?_⟩
        · simp [ih1]
        · simp only [List.filterMap_cons, hexec, ih2]
        · simp [hexec, isOkB, ih3]
      | error e =>
        refine ⟨?_, ?_, ?_⟩
        · simp [ih1]
        · simp only [List.filterMap_cons, hexec, ih2]
        · simp [hexec, isOkB, ih3]

theorem sum_map_filter_split (q : β → Bool) (f : β → Nat) :
    ∀ l : List β,
      ((l.filter q).map f).sum + ((l.filter (fun x => !q x)).map f).sum
        = (l.map f).sum := by
  intro l
  induction l with
  | nil => simp
  | cons x xs ih =>
    cases hq : q x <;> simp [List.filter_cons, hq] <;> omega

theorem failed_filterMap_eq (exec : Nat → Except String Unit) :
    ∀ bs : List (Nat × List α),
      bs.filterMap
        (fun p => match exec p.1 with
                  | .error e => some (p.1, e)
                  | .ok _ => none) =
      (bs.filter (fun p => !isOkB (exec p.1))).map
        (fun p => (p.1, errMsg (exec p.1))) := by
  intro bs
  induction bs with
  | nil => simp
  | cons p ps ih =>
    simp only [List.filterMap_cons, List.filter_cons]
    cases hexec : exec p.1 with
    | ok u => simpa [isOkB, errMsg] using ih
    | error e => simpa [isOkB, errMsg, hexec] using ih

/-- The total size of all offset-annotated batches is the dataset size. -/
theorem offsetBatches_sum_length (b : Nat) (hb : 1 ≤ b) (l : List α) :
    ((offsetBatches b 0 l).map (fun p => p.2.length)).sum = l.length := by
  have hmap := offsetBatches_map_snd b hb l.length 0 l (le_refl _)
  have : (offsetBatches b 0 l).map (fun p => p.2.length)
      = ((offsetBatches b 0 l).map Prod.snd).map List.length := by
    simp [List.map_map]
  rw [this, hmap, sliceBatches_sum_length b hb l]

/-- C2: a failing batch is logged with its starting offset and the engine's
error text, contributes nothing to the inserted-count, and does not stop
the run: every batch is still submitted.  When exactly one batch (of at
least two) fails, the final inserted-count is the dataset size minus that
batch's record count. -/
theorem batch_failure_isolated (exec : Nat → Except String Unit) (b : Nat)
    (l : List α) (i0 : Nat) (batch0 : List α) (e0 : String)
    (hb : 1 ≤ b)
    (_hk : 2 ≤ (offsetBatches b 0 l).length)
    (hfail : (offsetBatches b 0 l).filter (fun p => !isOkB (exec p.1))
      = [(i0, batch0)])
    (herr : exec i0 = .error e0) :
    (runBatches exec b 0 l).insertedCount = l.length - batch0.length ∧
    (runBatches exec b 0 l).failedBatches = [(i0, e0)] ∧
    (runBatches exec b 0 l).submitted = (offsetBatches b 0 l).length ∧
    batch0.length ≤ l.length := by
  obtain ⟨h1, h2, h3⟩ := runBatches_spec exec b hb l.length 0 l (le_refl _)
  have hsplit := sum_map_filter_split (fun p => isOkB (exec p.1))
    (fun p : Nat × List α => p.2.length) (offsetBatches b 0 l)
  rw [offsetBatches_sum_length b hb l] at hsplit
  have hfailsum :
      (((offsetBatches b 0 l).filter (fun p => !isOkB (exec p.1))).map
        (fun p : Nat × List α => p.2.length)).sum = batch0.length := by
    rw [hfail]; simp
  rw [hfailsum] at hsplit
  refine ⟨?_, ?_, h1, ?_⟩
  · rw [h3]; omega
  · rw [h2, failed_filterMap_eq, hfail]
    simp [errMsg, herr]
  · omega

/-- Witness for `batch_failure_isolated`: five records, batch size 2,
the Gateway failing exactly the batch at offset 2 with error "boom". -/
theorem batch_failure_isolated_witness :
    (runBatches (fun i => if i = 2 then .error "boom" else .ok ())
        2 0 [10, 20, 30, 40, 50]).insertedCount = 5 - 2 ∧
    (runBatches (fun i => if i = 2 then .error "boom" else .ok ())
        2 0 [10, 20, 30, 40, 50]).failedBatches = [(2, "boom")] ∧
    (runBatches (fun i => if i = 2 then .error "boom" else .ok ())
        2 0 [10, 20, 30, 40, 50]).submitted
      = (offsetBatches 2 0 [10, 20, 30, 40, 50]).length ∧
    ([30, 40] : List Nat).length ≤ ([10, 20, 30, 40, 50] : List Nat).length := by
  have h := batch_failure_isolated
    (fun i => if i = 2 then .error "boom" else .ok ())
    2 [10, 20, 30, 40, 50] 2 [30, 40] "boom"
    (by decide)
    (by simp [offsetBatches])
    (by simp [offsetBatches, isOkB])
    (by simp)
  simpa using h

/-- C4: if every batch submission succeeds the final inserted-count equals
the dataset size, and on an empty dataset the loop issues no statements
and yields an inserted-count of zero. -/
theorem all_success_counts (exec : Nat → Except String Unit) (b : Nat)
    (l : List α) (hb : 1 ≤ b)
    (hok : ∀ p ∈ offsetBatches b 0 l, isOkB (exec p.1) = true) :
    (runBatches exec b 0 l).insertedCount = l.length ∧
    (runBatches exec b 0 l).failedBatches = [] ∧
    runBatches exec b 0 ([] : List α) = ⟨0, [], 0⟩ := by
  obtain ⟨h1, h2, h3⟩ := runBatches_spec exec b hb l.length 0 l (le_refl _)
  refine ⟨?_, ?_, runBatches_nil exec b 0⟩
  · rw [h3, List.filter_eq_self.mpr hok, offsetBatches_sum_length b hb l]
  · rw [h2, failed_filterMap_eq]
    have : (offsetBatches b 0 l).filter (fun p => !isOkB (exec p.1)) = [] := by
      rw [List.filter_eq_nil_iff]
      intro p hp
      simp [hok p hp]
    rw [this]
    simp

/-- Witness for `all_success_counts`: all submissions succeed on a
five-record dataset with batch size 2. -/
theorem all_success_counts_witness :
    (runBatches (fun _ => .ok ()) 2 0 [10, 20, 30, 40, 50]).insertedCount = 5 ∧
    (runBatches (fun _ => .ok ()) 2 0 [10, 20, 30, 40, 50]).failedBatches = [] ∧
    runBatches (fun _ => .ok ()) 2 0 ([] : List Nat) = ⟨0, [], 0⟩ := by
  have h := all_success_counts (fun _ => .ok ()) 2 [10, 20, 30, 40, 50]
    (by decide) (by intro p _; simp [isOkB])
  simpa using h

/-! ## Post-import verification pass (importJSONToImmuDB)

After the insertion loop the script issues a `SELECT COUNT(*)` query and a
`LIMIT 5` sample query, each inside its own `try`/`catch` whose handler
only writes a console message; neither can change the inserted-count nor
abort the run. -/

/-- The operator-facing outcome of one full import run: the insertion
loop's bookkeeping plus what the two read-only verification queries
reported (`none` when the query failed and was merely logged). -/
structure ImportRunReport where
  insertedCount : Nat
  failedBatches : List (Nat × String)
  submitted : Nat
  countVerification : Option Nat
  sampleVerification : Option (List String)
deriving DecidableEq, Repr

/-- The import phase after table creation: run the insertion loop, then
the aggregate count query and the limited-row sample query, where
`countQ` and `sampleQ` are the Gateway's responses to those two queries
(an `.error` is a thrown exception caught by the enclosing handler). -/
def importPipeline (exec : Nat → Except String Unit) (b : Nat) (l : List α)
    (countQ : Except String Nat) (sampleQ : Except String (List String)) :
    Except String ImportRunReport :=
  let r := runBatches exec b 0 l
  let cv : Option Nat :=
    match countQ with
    | .ok total => some total
    | .error _ => none
  let sv : Option (List String) :=
    match sampleQ with
    | .ok rows => some rows
    | .error _ => none
  .ok ⟨r.insertedCount, r.failedBatches, r.submitted, cv, sv⟩

/-- C8: a failure of the post-import verification pass is non-fatal: for
any outcomes of the count and sample queries, the pipeline still returns
normally and its inserted-count, failure log and submission count are
exactly those of the insertion loop, unaffected by the verification
outcomes. -/
theorem verification_nonfatal (exec : Nat → Except String Unit) (b : Nat)
    (l : List α) (countQ : Except String Nat)
    (sampleQ : Except String (List String)) :
    (importPipeline exec b l countQ sampleQ).toOption.map
        (fun rep => (rep.insertedCount, rep.failedBatches, rep.submitted))
      = some ((runBatches exec b 0 l).insertedCount,
              (runBatches exec b 0 l).failedBatches,
              (runBatches exec b 0 l).submitted) := rfl

/-! ## Bulk INSERT statement construction and escaping (importJSONToImmuDB)

Each record of a batch is rendered as a parenthesized tuple of
single-quoted SQL string literals; the `escape` helper doubles every
embedded quote and collapses `null`/missing fields (JS falsy) to the
empty-string sentinel.  A record is abstracted to the ordered list of its
~56 nullable string fields, and strings to `List Char`; the template
literals' insignificant whitespace is elided.  A small scanner for the
target grammar's string literals expresses syntactic well-formedness:
parsing the generated text recovers exactly the intended field values. -/

def quoteChar : Char := Char.ofNat 39
def commaChar : Char := Char.ofNat 44
def lparenChar : Char := Char.ofNat 40
def rparenChar : Char := Char.ofNat 41

/-- The replacement `str.replace(/\x27/g, "\x27\x27")`: the global single-character regex
replacement doubles every quote and leaves other characters unchanged. -/
def escapeChars : List Char → List Char
  | [] => []
  | c :: cs =>
    if c = quoteChar then quoteChar :: quoteChar :: escapeChars cs
    else c :: escapeChars cs

/-- The `escape` helper: `if (!str) return \x27\x27; return str.replace(...)`.
A `null` field and the empty string (both JS falsy) yield the
empty-string sentinel; any other string has its quotes doubled. -/
def escapeField : Option (List Char) → List Char
  | none => []
  | some s => if s = [] then [] else escapeChars s

/-- The value a rendered field stands for: `null`/missing collapses to the
empty-string sentinel. -/
def fieldValue : Option (List Char) → List Char
  | none => []
  | some s => s

/-- One quoted SQL string literal of the VALUES clause. -/
def renderLiteral (f : Option (List Char)) : List Char :=
  quoteChar :: escapeField f ++ [quoteChar]

def sepJoin (sep : List Char) : List (List Char) → List Char
  | [] => []
  | [x] => x
  | x :: y :: xs => x ++ sep ++ sepJoin sep (y :: xs)

/-- The comma-separated literals of one record's row. -/
def renderValuesRow (fields : List (Option (List Char))) : List Char :=
  sepJoin [commaChar] (fields.map renderLiteral)

/-- One parenthesized row tuple of the bulk INSERT. -/
def renderRowTuple (fields : List (Option (List Char))) : List Char :=
  lparenChar :: renderValuesRow fields ++ [rparenChar]

/-- The join `batch.map(...).join(",")`: the full VALUES clause of one batch. -/
def valuesClause (batch : List (List (Option (List Char)))) : List Char :=
  sepJoin [commaChar] (batch.map renderRowTuple)

/-- Scanner for the body of a single-quoted literal of the target grammar,
applied right after an opening quote: a doubled quote denotes one quote of
the value, a lone quote closes the literal.  Returns the decoded value and
the unconsumed remainder. -/
def scanLitBody : List Char → Option (List Char × List Char)
  | [] => none
  | c :: cs =>
    if c = quoteChar then
      match cs with
      | [] => some ([], [])
      | c2 :: cs2 =>
        if c2 = quoteChar then
          match scanLitBody cs2 with
          | some (v, rest) => some (quoteChar :: v, rest)
          | none => none
        else some ([], cs)
    else
      match scanLitBody cs with
      | some (v, rest) => some (c :: v, rest)
      | none => none

/-- Parse exactly `k` comma-separated quoted literals. -/
def parseLitSeq : Nat → List Char → Option (List (List Char) × List Char)
  | 0, rest => some ([], rest)
  | _ + 1, [] => none
  | k + 1, c :: cs =>
    if c = quoteChar then
      match scanLitBody cs with
      | none => none
      | some (v, rest) =>
        match k, rest with
        | 0, _ => some ([v], rest)
        | _ + 1, [] => none
        | m + 1, c2 :: cs2 =>
          if c2 = commaChar then
            match parseLitSeq (m + 1) cs2 with
            | some (vs, rest2) => some (v :: vs, rest2)
            | none => none
          else none
    else none

/-- Parse one parenthesized tuple of `k` literals. -/
def parseRowTuple (k : Nat) : List Char → Option (List (List Char) × List Char)
  | [] => none
  | c :: cs =>
    if c = lparenChar then
      match parseLitSeq k cs with
      | some (vs, c2 :: rest) =>
        if c2 = rparenChar then some (vs, rest) else none
      | _ => none
    else none

/-- Parse a comma-separated sequence of row tuples with the given field
counts. -/
def parseTupleSeq : List Nat → List Char → Option (List (List (List Char)) × List Char)
  | [], rest => some ([], rest)
  | [k], input =>
    match parseRowTuple k input with
    | some (vs, rest) => some ([vs], rest)
    | none => none
  | k :: k2 :: ks, input =>
    match parseRowTuple k input with
    | some (vs, c :: rest) =>
      if c = commaChar then
        match parseTupleSeq (k2 :: ks) rest with
        | some (vss, rest2) => some (vs :: vss, rest2)
        | none => none
      else none
    | _ => none

theorem escapeField_eq (f : Option (List Char)) :
    escapeField f = escapeChars (fieldValue f) := by
  cases f with
  | none => rfl
  | some s =>
    cases s with
    | nil => rfl
    | cons c cs => simp [escapeField, fieldValue]

/-- Every quote of the input value is doubled in the escaped text. -/
theorem escapeChars_count (s : List Char) :
    (escapeChars s).count quoteChar = 2 * s.count quoteChar := by
  induction s with
  | nil => simp [escapeChars]
  | cons c cs ih =>
    by_cases hc : c = quoteChar
    · subst hc
      simp [escapeChars, List.count_cons, ih]
      ring
    · simp [escapeChars, hc, List.count_cons, ih]

theorem scanLitBody_quote_end : scanLitBody [quoteChar] = some ([], []) := rfl

theorem scanLitBody_quote_close (c2 : Char) (cs2 : List Char)
    (h : c2 ≠ quoteChar) :
    scanLitBody (quoteChar :: c2 :: cs2) = some ([], c2 :: cs2) := by
  rw [scanLitBody]; simp [h]

theorem scanLitBody_quote_quote (cs : List Char) :
    scanLitBody (quoteChar :: quoteChar :: cs) =
      match scanLitBody cs with
      | some (v, rest) => some (quoteChar :: v, rest)
      | none => none := by
  rw [scanLitBody]; simp

theorem scanLitBody_other (c : Char) (cs : List Char) (h : c ≠ quoteChar) :
    scanLitBody (c :: cs) =
      match scanLitBody cs with
      | some (v, rest) => some (c :: v, rest)
      | none => none := by
  rw [scanLitBody.eq_def]; simp [h]

/-- Scanning an escaped value followed by a closing quote recovers exactly
the original value and consumes nothing else, provided the following text
does not itself begin with a quote (in a generated statement it is a
comma or a closing parenthesis). -/
theorem scanLitBody_escape :
    ∀ (s rest : List Char), rest.head? ≠ some quoteChar →
      scanLitBody (escapeChars s ++ quoteChar :: rest) = some (s, rest) := by
  intro s
  induction s with
  | nil =>
    intro rest hrest
    cases rest with
    | nil => simpa [escapeChars] using scanLitBody_quote_end
    | cons r rs =>
      have hr : r ≠ quoteChar := by
        intro h
        exact hrest (by simp [h])
      simpa [escapeChars] using scanLitBody_quote_close r rs hr
  | cons c cs ih =>
    intro rest hrest
    by_cases hc : c = quoteChar
    · subst hc
      have hstep : escapeChars (quoteChar :: cs)
          = quoteChar :: quoteChar :: escapeChars cs := by
        simp [escapeChars]
      rw [hstep, List.cons_append, List.cons_append,
        scanLitBody_quote_quote, ih rest hrest]
    · have hstep : escapeChars (c :: cs) = c :: escapeChars cs := by
        simp [escapeChars, hc]
      rw [hstep, List.cons_append, scanLitBody_other c _ hc, ih rest hrest]

theorem comma_ne_quote : commaChar ≠ quoteChar := by decide

theorem rparen_ne_quote : rparenChar ≠ quoteChar := by decide

/-- Parsing the rendered row of literals recovers exactly the intended
field values (`null` collapsed to the empty-string sentinel). -/
theorem parseLitSeq_render :
    ∀ (fields : List (Option (List Char))) (rest : List Char),
      fields ≠ [] → rest.head? ≠ some quoteChar →
      parseLitSeq fields.length (renderValuesRow fields ++ rest)
        = some (fields.map fieldValue, rest) := by
  intro fields
  induction fields with
  | nil => intro rest h1 _; exact absurd rfl h1
  | cons f fs ih =>
    intro rest h1 h2
    cases fs with
    | nil =>
      have hrow : renderValuesRow [f] = renderLiteral f := by
        simp [renderValuesRow, sepJoin]
      have hassoc : renderValuesRow [f] ++ rest
          = quoteChar :: (escapeChars (fieldValue f) ++ quoteChar :: rest) := by
        rw [hrow, renderLiteral, escapeField_eq]
        simp
      rw [hassoc, List.length_cons, List.length_nil, parseLitSeq]
      simp [scanLitBody_escape (fieldValue f) rest h2]
    | cons f2 fs2 =>
      have hrow : renderValuesRow (f :: f2 :: fs2)
          = renderLiteral f ++ [commaChar] ++ renderValuesRow (f2 :: fs2) := by
        simp [renderValuesRow, sepJoin]
      have hassoc : renderValuesRow (f :: f2 :: fs2) ++ rest
          = quoteChar :: (escapeChars (fieldValue f) ++ quoteChar ::
              (commaChar :: (renderValuesRow (f2 :: fs2) ++ rest))) := by
        rw [hrow, renderLiteral, escapeField_eq]
        simp
      have hscan := scanLitBody_escape (fieldValue f)
        (commaChar :: (renderValuesRow (f2 :: fs2) ++ rest))
        (by simp [comma_ne_quote])
      have hrec := ih rest (List.cons_ne_nil f2 fs2) h2
      simp only [List.length_cons] at hrec
      rw [hassoc, List.length_cons, parseLitSeq]
      simp only [if_pos rfl, hscan]
      rw [List.length_cons]
      simp [hrec]

/-- Parsing the rendered parenthesized row tuple recovers the field
values. -/
theorem parseRowTuple_render (fields : List (Option (List Char)))
    (rest : List Char) (h1 : fields ≠ []) :
    parseRowTuple fields.length (renderRowTuple fields ++ rest)
      = some (fields.map fieldValue, rest) := by
  have hassoc : renderRowTuple fields ++ rest
      = lparenChar :: (renderValuesRow fields ++ (rparenChar :: rest)) := by
    rw [renderRowTuple]
    simp
  have hseq := parseLitSeq_render fields (rparenChar :: rest) h1
    (by simp [rparen_ne_quote])
  rw [hassoc, parseRowTuple]
  simp [hseq]

/-- Parsing the whole generated VALUES clause of a batch recovers every
record's field values: the statement text is syntactically well-formed
for the target grammar and denotes exactly the intended data. -/
theorem parseTupleSeq_values :
    ∀ (batch : List (List (Option (List Char)))),
      (∀ row ∈ batch, row ≠ []) →
      parseTupleSeq (batch.map List.length) (valuesClause batch)
        = some (batch.map (fun row => row.map fieldValue), []) := by
  intro batch
  induction batch with
  | nil => intro _; rfl
  | cons row rows ih =>
    intro hne
    have hrow : row ≠ [] := hne row (by simp)
    cases rows with
    | nil =>
      have hclause : valuesClause [row] = renderRowTuple row := by
        simp [valuesClause, sepJoin]
      have htuple := parseRowTuple_render row [] hrow
      rw [List.append_nil] at htuple
      simp only [List.map_cons, List.map_nil, hclause, parseTupleSeq, htuple]
    | cons row2 rows2 =>
      have hclause : valuesClause (row :: row2 :: rows2)
          = renderRowTuple row ++ (commaChar :: valuesClause (row2 :: rows2)) := by
        simp [valuesClause, sepJoin]
      have htuple := parseRowTuple_render row
        (commaChar :: valuesClause (row2 :: rows2)) hrow
      have hrec := ih (fun r hr => hne r (by simp [hr]))
      simp only [List.map_cons] at hrec
      simp only [List.map_cons, hclause, parseTupleSeq, htuple]
      simp [hrec]

/-- C3: the importer's escaping discipline — `null`/missing fields become
the empty-string sentinel, every embedded quote of a string value is
doubled, and the generated VALUES text is syntactically well-formed for
the target grammar: parsing it back recovers exactly the intended field
values of every record of the batch. -/
theorem escaping_correct (s : List Char) (f : Option (List Char))
    (batch : List (List (Option (List Char))))
    (hne : ∀ row ∈ batch, row ≠ []) :
    (escapeChars s).count quoteChar = 2 * s.count quoteChar ∧
    escapeField none = [] ∧
    escapeField (some []) = [] ∧
    escapeField f = escapeChars (fieldValue f) ∧
    parseTupleSeq (batch.map List.length) (valuesClause batch)
      = some (batch.map (fun row => row.map fieldValue), []) :=
  ⟨escapeChars_count s, rfl, rfl, escapeField_eq f, parseTupleSeq_values batch hne⟩

/-- Witness for `escaping_correct` on a value containing a quote and a
two-record batch (one record with a null field, one whose field is a lone
quote). -/
theorem escaping_correct_witness :
    (escapeChars ['a', quoteChar, 'b']).count quoteChar
      = 2 * (['a', quoteChar, 'b'].count quoteChar) ∧
    escapeField none = [] ∧
    escapeField (some []) = [] ∧
    escapeField (some ['a', quoteChar, 'b'])
      = escapeChars (fieldValue (some ['a', quoteChar, 'b'])) ∧
    parseTupleSeq ([[some ['a'], none], [some [quoteChar]]].map List.length)
        (valuesClause [[some ['a'], none], [some [quoteChar]]])
      = some ([[some ['a'], none], [some [quoteChar]]].map
          (fun row => row.map fieldValue), []) :=
  escaping_correct ['a', quoteChar, 'b'] (some ['a', quoteChar, 'b'])
    [[some ['a'], none], [some [quoteChar]]] (by decide)

/-! ## CRUD facade (ImmudbCrudService, src/index.ts)

The service issues one or two parameterized SQL statements per operation
against the external `users` table.  The table is modelled as the list of
its rows in insertion order; the Gateway's statement semantics (primary
key uniqueness on insert, `WHERE id = @id` row selection, `SET`-all-rows
update) follow the Gateway interface of the specification, since the
engine itself is an external collaborator.  Console logging, Swagger
metadata and the HTTP envelope are elided. -/

/-- One row of the `users` table: `id VARCHAR PRIMARY KEY, name, email,
created_at INTEGER` (the creation timestamp is `Date.now()`, a natural
number of milliseconds — always present on created rows). -/
structure UserRow where
  id : String
  name : String
  email : String
  createdAt : Nat
deriving DecidableEq, Repr

/-- The `users` table owned by the external store. -/
abbrev UsersTable := List UserRow

/-- Error kinds surfaced by the facade (`User not found` for an empty
select result; a wrapped Gateway error when the insert fails, e.g. on a
duplicate primary key). -/
inductive ApiError
  | notFound
  | createFailed
deriving DecidableEq, Repr

/-- The select `SELECT id, name, email, created_at FROM "users" WHERE id = @id`. -/
def selectById (st : UsersTable) (id : String) : List UserRow :=
  st.filter (fun r => r.id == id)

/-- The insert `INSERT INTO "users" (id, name, email, created_at) VALUES (@id, @name,
@email, @createdAt)`: the engine rejects a duplicate primary key. -/
def insertRow (st : UsersTable) (row : UserRow) : Except ApiError UsersTable :=
  if st.any (fun r => r.id == row.id) then .error .createFailed
  else .ok (st ++ [row])

/-- The service method `createUser`: constructs the row with the `Date.now()` timestamp and
submits the insert; on success returns the created record (input fields
plus the creation timestamp) and the new table state. -/
def createUser (st : UsersTable) (id name email : String) (now : Nat) :
    Except ApiError (UsersTable × UserRow) :=
  match insertRow st ⟨id, name, email, now⟩ with
  | .ok st2 => .ok (st2, ⟨id, name, email, now⟩)
  | .error e => .error e

/-- The service method `getUser`: issues the parameterized select and fails with
`User not found` when zero rows come back, otherwise returns the first
row. -/
def getUser (st : UsersTable) (id : String) : Except ApiError UserRow :=
  match selectById st id with
  | [] => .error .notFound
  | row :: _ => .ok row

/-- The default `updates.name || \x27\x27` — JS `||` with the empty-string default:
`undefined`/`null` and the empty string (all falsy) collapse to the
empty string. -/
def jsOrEmpty : Option String → String
  | none => ""
  | some s => if s = "" then "" else s

/-- The statement `UPDATE "users" SET name = @name, email = @email WHERE id = @id`:
both columns of every matching row are overwritten. -/
def updateRows (st : UsersTable) (id name email : String) : UsersTable :=
  st.map (fun r =>
    if r.id == id then { r with name := name, email := email } else r)

/-- The service method `updateUser`: first confirms the record exists via `getUser`
(propagating `notFound`), then issues the update statement — which always
sets both `name` and `email`, to `updates.name || \x27\x27` and
`updates.email || \x27\x27` — then re-reads and returns the post-update
state. -/
def updateUser (st : UsersTable) (id : String)
    (name? email? : Option String) : Except ApiError (UsersTable × UserRow) :=
  match getUser st id with
  | .error e => .error e
  | .ok _ =>
    let st2 := updateRows st id (jsOrEmpty name?) (jsOrEmpty email?)
    match getUser st2 id with
    | .error e => .error e
    | .ok row => .ok (st2, row)

/-- The observable outcome of the history endpoint's Gateway call: the
query text and parameter it issues, the rows the store's HISTORY view
returns, and the informational note string interpolating the requested
transaction id. -/
structure HistoryResult where
  sqlText : String
  paramId : String
  rows : List UserRow
  note : String
deriving DecidableEq, Repr

def historySQL : String := "SELECT * FROM (HISTORY OF \"users\") WHERE id = @id"

/-- JS template interpolation of the optional `txId` argument
(an absent argument prints as `undefined`). -/
def txInterp : Option String → String
  | none => "undefined"
  | some t => t

/-- The service method `getUserAtTransaction`: issues the HISTORY query, which is
parameterized only by the record id — `txId` is never passed to the
Gateway and reaches only the note string of the proof field. -/
def getUserAtTransaction (hist : List UserRow) (id : String)
    (txId : Option String) : Except ApiError HistoryResult :=
  .ok { sqlText := historySQL
        paramId := id
        rows := hist.filter (fun r => r.id == id)
        note := "Historical data before transaction " ++ txInterp txId }

theorem updateRows_filter (st : UsersTable) (id name email : String) :
    (updateRows st id name email).filter (fun r => r.id == id)
      = (st.filter (fun r => r.id == id)).map
          (fun r => { r with name := name, email := email }) := by
  induction st with
  | nil => rfl
  | cons r rs ih =>
    simp only [updateRows] at ih ⊢
    by_cases hr : r.id = id
    · simp [hr, List.filter_cons] at ih ⊢
      exact ih
    · simp [hr, List.filter_cons] at ih ⊢
      exact ih

/-- A successful `updateUser` returns the re-read row for the requested
id: its `name` and `email` columns are exactly the JS-defaulted payload
values, its id is the requested id, and the returned state is the updated
table. -/
theorem updateUser_ok (st : UsersTable) (id : String)
    (name? email? : Option String) (st2 : UsersTable) (row : UserRow)
    (h : updateUser st id name? email? = .ok (st2, row)) :
    row.id = id ∧ row.name = jsOrEmpty name? ∧ row.email = jsOrEmpty email? ∧
    st2 = updateRows st id (jsOrEmpty name?) (jsOrEmpty email?) ∧
    getUser st2 id = .ok row := by
  unfold updateUser at h
  cases h0 : getUser st id with
  | error e => rw [h0] at h; simp at h
  | ok r0 =>
    rw [h0] at h
    simp only at h
    cases h1 : getUser
        (updateRows st id (jsOrEmpty name?) (jsOrEmpty email?)) id with
    | error e => rw [h1] at h; simp at h
    | ok row' =>
      rw [h1] at h
      simp only [Except.ok.injEq, Prod.mk.injEq] at h
      obtain ⟨hst2, hrow⟩ := h
      subst hst2
      subst hrow
      have hprops : row'.id = id ∧ row'.name = jsOrEmpty name? ∧
          row'.email = jsOrEmpty email? := by
        unfold getUser at h1
        cases hsel : selectById
            (updateRows st id (jsOrEmpty name?) (jsOrEmpty email?)) id with
        | nil => rw [hsel] at h1; simp at h1
        | cons a rest =>
          rw [hsel] at h1
          simp only [Except.ok.injEq] at h1
          rw [selectById, updateRows_filter] at hsel
          cases hfil : st.filter (fun r => r.id == id) with
          | nil => rw [hfil] at hsel; simp at hsel
          | cons r1 rest1 =>
            rw [hfil] at hsel
            simp only [List.map_cons, List.cons.injEq] at hsel
            obtain ⟨ha, _⟩ := hsel
            have hr1 : (r1.id == id) = true := by
              have hm : r1 ∈ st.filter (fun r => r.id == id) := by
                rw [hfil]; exact List.mem_cons_self r1 rest1
              exact (List.mem_filter.mp hm).2
            rw [← h1, ← ha]
            exact ⟨eq_of_beq hr1, rfl, rfl⟩
      exact ⟨hprops.1, hprops.2.1, hprops.2.2, rfl, h1⟩

theorem updateUser_notFound (st : UsersTable) (id : String)
    (name? email? : Option String)
    (h : getUser st id = .error .notFound) :
    updateUser st id name? email? = .error .notFound := by
  unfold updateUser
  rw [h]

/-- C5: a successful Create followed by Read-by-id returns a record equal
to the input plus the creation timestamp taken at create time (a
`Date.now()` value, present on every created row). -/
theorem create_then_read (st : UsersTable) (id name email : String)
    (now : Nat) (st2 : UsersTable) (resp : UserRow)
    (h : createUser st id name email now = .ok (st2, resp)) :
    resp = ⟨id, name, email, now⟩ ∧
    getUser st2 id = .ok ⟨id, name, email, now⟩ := by
  unfold createUser insertRow at h
  split at h
  · next st2A heq =>
    simp only [Except.ok.injEq, Prod.mk.injEq] at h
    obtain ⟨hst2, hresp⟩ := h
    subst hst2
    subst hresp
    split at heq
    · simp at heq
    · next hany =>
      simp only [Except.ok.injEq] at heq
      subst heq
      refine ⟨rfl, ?_⟩
      have hnil : st.filter (fun r => r.id == id) = [] := by
        rw [List.filter_eq_nil_iff]
        intro r hr hcon
        exact hany (List.any_eq_true.mpr ⟨r, hr, hcon⟩)
      unfold getUser selectById
      rw [List.filter_append, hnil]
      simp
  · simp at h

/-- Witness for `create_then_read`: creating "u1" in an empty table and
reading it back. -/
theorem create_then_read_witness :
    (⟨"u1", "Alice", "a@ex", 5⟩ : UserRow) = ⟨"u1", "Alice", "a@ex", 5⟩ ∧
    getUser [⟨"u1", "Alice", "a@ex", 5⟩] "u1"
      = .ok ⟨"u1", "Alice", "a@ex", 5⟩ :=
  create_then_read [] "u1" "Alice" "a@ex" 5 [⟨"u1", "Alice", "a@ex", 5⟩]
    ⟨"u1", "Alice", "a@ex", 5⟩ (by rfl)

/-- C6: Update first confirms existence via Read-by-id, failing with
`notFound` otherwise; on an existing record it issues the update
statement, then re-reads and returns the post-update state — so updating
the name to "X" and reading back yields name "X" under an unchanged
id. -/
theorem update_confirms_and_rereads
    (stA : UsersTable) (idA : String) (nA eA : Option String)
    (st : UsersTable) (id : String) (email? : Option String)
    (st2 : UsersTable) (row : UserRow)
    (hmiss : getUser stA idA = .error .notFound)
    (hupd : updateUser st id (some "X") email? = .ok (st2, row)) :
    updateUser stA idA nA eA = .error .notFound ∧
    getUser st2 id = .ok row ∧ row.id = id ∧ row.name = "X" := by
  obtain ⟨h1, h2, _, _, h5⟩ := updateUser_ok st id (some "X") email? st2 row hupd
  refine ⟨updateUser_notFound stA idA nA eA hmiss, h5, h1, ?_⟩
  rw [h2]
  simp [jsOrEmpty]

/-- Witness for `update_confirms_and_rereads`: a missing id "zz" in an
empty table, and a name update to "X" on an existing record "u1". -/
theorem update_confirms_and_rereads_witness :
    updateUser [] "zz" none none = .error .notFound ∧
    getUser [⟨"u1", "X", "b@ex", 5⟩] "u1" = .ok ⟨"u1", "X", "b@ex", 5⟩ ∧
    (⟨"u1", "X", "b@ex", 5⟩ : UserRow).id = "u1" ∧
    (⟨"u1", "X", "b@ex", 5⟩ : UserRow).name = "X" :=
  update_confirms_and_rereads [] "zz" none none
    [⟨"u1", "Alice", "a@ex", 5⟩] "u1" (some "b@ex")
    [⟨"u1", "X", "b@ex", 5⟩] ⟨"u1", "X", "b@ex", 5⟩ (by rfl) (by rfl)

/-- C7: when the select for an id returns zero rows — in particular for
any id never created — Read-by-id fails with `notFound`. -/
theorem read_missing_notFound (st : UsersTable) (id : String)
    (h : selectById st id = []) :
    getUser st id = .error .notFound := by
  unfold getUser
  rw [h]

/-- Witness for `read_missing_notFound`: an id absent from a one-row
table. -/
theorem read_missing_notFound_witness :
    getUser [⟨"u1", "Alice", "a@ex", 5⟩] "nobody" = .error .notFound :=
  read_missing_notFound [⟨"u1", "Alice", "a@ex", 5⟩] "nobody" (by rfl)

/-- C9: the update statement always sets both the name and the email
column: after a successful update the stored values are exactly the
JS-defaulted payload values, where an omitted (`none`), null or
empty-string payload field collapses to the empty string — the previous
column value is never preserved. -/
theorem update_sets_both_columns (st : UsersTable) (id : String)
    (name? email? : Option String) (st2 : UsersTable) (row : UserRow)
    (hupd : updateUser st id name? email? = .ok (st2, row)) :
    row.name = jsOrEmpty name? ∧ row.email = jsOrEmpty email? ∧
    st2 = updateRows st id (jsOrEmpty name?) (jsOrEmpty email?) ∧
    jsOrEmpty none = "" ∧ jsOrEmpty (some "") = "" := by
  obtain ⟨_, h2, h3, h4, _⟩ := updateUser_ok st id name? email? st2 row hupd
  exact ⟨h2, h3, h4, rfl, rfl⟩

/-- Witness for `update_sets_both_columns`: updating "u1" with an empty
payload erases both columns of the stored row. -/
theorem update_sets_both_columns_witness :
    (⟨"u1", "", "", 5⟩ : UserRow).name = jsOrEmpty none ∧
    (⟨"u1", "", "", 5⟩ : UserRow).email = jsOrEmpty none ∧
    [⟨"u1", "", "", 5⟩]
      = updateRows [⟨"u1", "Alice", "a@ex", 5⟩] "u1"
          (jsOrEmpty none) (jsOrEmpty none) ∧
    jsOrEmpty none = "" ∧ jsOrEmpty (some "") = "" :=
  update_sets_both_columns [⟨"u1", "Alice", "a@ex", 5⟩] "u1" none none
    [⟨"u1", "", "", 5⟩] ⟨"u1", "", "", 5⟩ (by rfl)

/-- C10: the history endpoint issues the identical query (same text, same
id parameter) and returns the same data rows whatever transaction id is
requested: `txId` influences only the informational note string, so the
returned historical data does not depend on it. -/
theorem history_independent_of_txid (hist : List UserRow) (id : String)
    (t1 t2 : Option String) :
    (getUserAtTransaction hist id t1).map
        (fun r => (r.sqlText, r.paramId, r.rows))
      = (getUserAtTransaction hist id t2).map
        (fun r => (r.sqlText, r.paramId, r.rows)) := rfl

end ImmudbCrud
